import Mathlib

set_option maxRecDepth 10000

/-!
Shallow embedding of the mood-report processing engine of `src/api/api/processing.py`:
the emotion aggregator, the Slack message fetcher, the mood synthesizer
(`get_mood_summary_from_llm`) with its alarm-decision post-processing, and the
report composer (`process_emotions_and_repos`) with its watermark-driven
per-user windows and group rollup.

Timestamps are modelled as natural numbers; `datetimeMin` stands for
`datetime.min` (the minimum representable time, "the epoch").  Emotion scores
are modelled as rationals.  The external text-generation service, the commit
fetcher and the Slack fetcher are modelled as oracle functions carried in the
environment; the generation oracle returns `none` when the request raises.
-/

abbrev Time := Nat

/-- `datetime.min.replace(tzinfo=timezone.utc)`: the minimum representable time. -/
def datetimeMin : Time := 0

/-- A value stored under an emotion key: a numeric score, or something
`isinstance(value, (int, float))` rejects. -/
inductive EmotionVal where
  | num (v : ℚ)
  | other
  deriving DecidableEq

/-- `toNumVal` extracts the numeric value accepted by the
`isinstance(value, (int, float))` guard. -/
def toNumVal : EmotionVal → Option ℚ
  | EmotionVal.num v => some v
  | EmotionVal.other => none

/-- One document of the `emotions` collection. -/
structure TelemetryEntry where
  user_id : String
  timestamp : Time
  emotions : List (String × EmotionVal)
  deriving DecidableEq

/-- One document of the `users` collection (`email`/`username` keys may be absent). -/
structure User where
  user_id : String
  email : Option String
  username : Option String
  deriving DecidableEq

/-- One document of the `projects` collection (only the fields the engine reads). -/
structure Project where
  project_id : String
  members : List String
  deriving DecidableEq

/-- One document of the `mood_reports` collection, exactly the dict the composer
inserts.  `processed_user_count` is `none` on individual reports (the key is
absent there). -/
structure Report where
  user_id : Option String
  project_id : String
  report_timestamp : Time
  start_time : Time
  end_time : Time
  average_emotions : List (String × ℚ)
  mood_summary : String
  processed_entries : Nat
  commit_count : Nat
  processed_user_count : Option Nat
  report_type : String
  is_alarm : Bool
  alarm_message : Option String
  deriving DecidableEq

/-! ### Python string helpers (character-list based) -/

/-- Python whitespace characters stripped by `str.strip()`. -/
def pyWhitespace (c : Char) : Bool :=
  c == ' ' || c == '\t' || c == '\n' || c == '\r' || c == '\x0b' || c == '\x0c'

/-- Python `s.strip()`. -/
def pyStrip (s : String) : String :=
  ⟨((s.data.dropWhile pyWhitespace).reverse.dropWhile pyWhitespace).reverse⟩

/-- Python `s.lstrip()`. -/
def pyLStrip (s : String) : String :=
  ⟨s.data.dropWhile pyWhitespace⟩

/-- Python `s[n:]` (drop the first `n` characters). -/
def dropStr (n : Nat) (s : String) : String :=
  ⟨s.data.drop n⟩

/-- Python `s.split('\n')[0]`: the text up to the first line break. -/
def firstLineStr (s : String) : String :=
  ⟨s.data.takeWhile (fun c => c != '\n')⟩

/-- Python `s.startswith(p)`. -/
def startsWithStr (s p : String) : Bool :=
  p.data.isPrefixOf s.data

/-- Substring test on character lists. -/
def containsSub (s pat : List Char) : Bool :=
  (List.range (s.length + 1)).any (fun i => pat.isPrefixOf (s.drop i))

/-- Python `pat in s` on strings. -/
def strContains (s pat : String) : Bool :=
  containsSub s.data pat.data

/-- `dict.fromkeys`-style deduplication: keep the first occurrence of each
element, preserving order. -/
def dedupFirst {α : Type} [DecidableEq α] (l : List α) : List α :=
  l.foldl (fun acc x => if x ∈ acc then acc else acc ++ [x]) []

/-! ### Emotion aggregation (lines 465-477 / 555-567) -/

/-- The `(emotion, value)` pairs of one entry that pass the numeric guard. -/
def entryNumericPairs (e : TelemetryEntry) : List (String × ℚ) :=
  e.emotions.filterMap (fun p => (toNumVal p.2).map (fun v => (p.1, v)))

/-- All `(emotion, value)` pairs with a numeric value, in iteration order:
`for entry in data: for emotion, value in entry["emotions"].items(): if isinstance(...)`. -/
def numericPairs (entries : List TelemetryEntry) : List (String × ℚ) :=
  entries.flatMap entryNumericPairs

/-- `emotion_sums[k]` (a `defaultdict(float)`). -/
def emotionSum (entries : List TelemetryEntry) (k : String) : ℚ :=
  (((numericPairs entries).filter (fun p => p.1 == k)).map Prod.snd).sum

/-- `emotion_counts[k]` (a `defaultdict(int)`). -/
def emotionCount (entries : List TelemetryEntry) (k : String) : Nat :=
  ((numericPairs entries).filter (fun p => p.1 == k)).length

/-- The keys of `emotion_sums`, in insertion order. -/
def emotionKeys (entries : List TelemetryEntry) : List String :=
  dedupFirst ((numericPairs entries).map Prod.fst)

/-- The `average_emotions` dict comprehension: one pair per key of
`emotion_sums` (each such key has a positive count, so the `> 0` guard in the
comprehension never filters anything out). -/
def averageEmotions (entries : List TelemetryEntry) : List (String × ℚ) :=
  (emotionKeys entries).map (fun k => (k, emotionSum entries k / (emotionCount entries k : ℚ)))

/-- The numeric value an entry carries for key `k`, if any (entry dicts have
unique keys). -/
def entryNumValue (k : String) (e : TelemetryEntry) : Option ℚ :=
  (e.emotions.lookup k).bind toNumVal

/-- The aggregation described by the spec, for comparison: for each key, the
arithmetic mean over only the entries that carry a numeric value for it. -/
def specMeanForKey (entries : List TelemetryEntry) (k : String) : Option ℚ :=
  let vals := entries.filterMap (entryNumValue k)
  if vals.isEmpty then none else some (vals.sum / (vals.length : ℚ))

/-! ### Slack fetcher (lines 62-148) -/

/-- A Slack message as returned by `conversations_history` (the `text` key may
be absent). -/
structure SlackMsg where
  user : String
  text : Option String
  deriving DecidableEq

/-- A Slack channel: membership flag and the history the service returns for
the requested window. -/
structure SlackChannel where
  id : String
  is_member : Bool
  history : List SlackMsg
  deriving DecidableEq

/-- The Slack-side state: the channel list and the user-id → display-name
resolution (`slack_get_username_from_id`, `none` on error). -/
structure SlackState where
  channels : List SlackChannel
  display_name : String → Option String

/-- `get_slack_messages_for_user`: the `user_id` argument is only used in log
output in the source, so it does not influence the computation. -/
def get_slack_messages_for_user (user_id : String) (st : SlackState) : List String :=
  let user_messages :=
    (st.channels.filter (fun ch => ch.is_member)).flatMap (fun ch =>
      ch.history.filterMap (fun m =>
        match m.text with
        | none => none
        | some t =>
          match st.display_name m.user with
          | none => none
          | some name => some (name ++ ": " ++ t)))
  dedupFirst user_messages

/-! ### Mood synthesizer (lines 231-372) -/

/-- The arguments of one `get_mood_summary_from_llm` call (the prompt is a
function of these). -/
structure GenCall where
  avg_emotions : List (String × ℚ)
  commits : List String
  slack_messages : List String
  report_type : String
  previous_reports : List Report
  individual_summaries : Option (List (String × String))
  deriving DecidableEq

/-- The literal alarm marker `"ALARM: "`. -/
def alarmMarker : String := "ALARM: "

/-- `get_mood_summary_from_llm`, with the text-generation service abstracted as
an oracle `gen` (`none` models a raised exception; `previous_reports = []`
models both `None` and an empty list, which Python's `not previous_reports`
identifies).  Returns `(summary, is_alarm, alarm_message)` with `summary = none`
on failure or empty response. -/
def get_mood_summary_from_llm (gen : GenCall → Option String) (c : GenCall) :
    Option String × Bool × Option String :=
  match gen c with
  | none => (none, false, none)
  | some full =>
    if full = "" then (none, false, none)
    else
      let isAlarm0 :=
        startsWithStr full alarmMarker && !c.previous_reports.isEmpty &&
          strContains c.report_type "Individual"
      let alarmMessage0 : Option String :=
        if isAlarm0 then
          some (firstLineStr (pyStrip (dropStr alarmMarker.data.length full)))
        else none
      if c.previous_reports.isEmpty || strContains c.report_type "Group" then
        (some (if startsWithStr full alarmMarker then
                 pyLStrip (dropStr alarmMarker.data.length full)
               else full),
         false, none)
      else
        (some full, isAlarm0, alarmMessage0)

/-- Lines 272-276: how an individual summary is cleaned before being embedded
into the group-report prompt (`summary.split('\n')[0]`, then the leading alarm
marker is removed and the remainder stripped). -/
def cleanSummaryForGroupPrompt (summary : String) : String :=
  let c := firstLineStr summary
  if startsWithStr c alarmMarker then pyStrip (dropStr alarmMarker.data.length c) else c

/-! ### Report composer (lines 375-614) -/

/-- The whole environment a tick runs against.  `fetchCommits project_id email
start end` and `fetchSlack user_id start end` abstract the two signal fetchers;
`gen` abstracts the text-generation service. -/
structure Env where
  projects : List Project
  users : List User
  emotions : List TelemetryEntry
  mood_reports : List Report
  fetchCommits : String → String → Time → Time → List String
  fetchSlack : String → Time → Time → List String
  gen : GenCall → Option String

/-- `mood_reports_collection.find` filter for individual reports of a
(user, project) pair. -/
def isIndividualFor (uid pid : String) (r : Report) : Bool :=
  r.user_id == some uid && r.project_id == pid && r.report_type == "individual"

/-- One step of scanning for the report with maximal `report_timestamp`. -/
def latestFold (best : Option Report) (r : Report) : Option Report :=
  match best with
  | none => some r
  | some b => if b.report_timestamp < r.report_timestamp then some r else some b

/-- `find_one(..., sort=[("report_timestamp", -1)])`: a report with maximal
`report_timestamp` among the pair's individual reports. -/
def findLatestIndividual (reports : List Report) (uid pid : String) : Option Report :=
  (reports.filter (isIndividualFor uid pid)).foldl latestFold none

/-- Insert into a list kept in descending `end_time` order. -/
def insertByEndDesc (r : Report) : List Report → List Report
  | [] => [r]
  | x :: xs => if x.end_time ≤ r.end_time then r :: x :: xs else x :: insertByEndDesc r xs

/-- Sort reports by descending `end_time`. -/
def sortByEndDesc (l : List Report) : List Report := l.foldr insertByEndDesc []

/-- `find(..., sort=[("end_time", -1)]).limit(2)`: up to two most recent
individual reports of the pair. -/
def previousReports (reports : List Report) (uid pid : String) : List Report :=
  (sortByEndDesc (reports.filter (isIndividualFor uid pid))).take 2

/-- The Mongo window query on the `emotions` collection:
`user_id = uid ∧ last < timestamp ≤ now`. -/
def windowFilter (emotions : List TelemetryEntry) (uid : String) (last now : Time) :
    List TelemetryEntry :=
  emotions.filter (fun e =>
    e.user_id == uid && decide (last < e.timestamp) && decide (e.timestamp ≤ now))

/-- Insert into a list kept in ascending `timestamp` order. -/
def insertByTs (e : TelemetryEntry) : List TelemetryEntry → List TelemetryEntry
  | [] => [e]
  | x :: xs => if e.timestamp ≤ x.timestamp then e :: x :: xs else x :: insertByTs e xs

/-- `.sort("timestamp", 1)`. -/
def sortEntries (l : List TelemetryEntry) : List TelemetryEntry := l.foldr insertByTs []

/-- `last_report["end_time"] if last_report else datetime.min` — the user's
watermark. -/
def lastReportTime (reports : List Report) (uid pid : String) : Time :=
  match findLatestIndividual reports uid pid with
  | some r => r.end_time
  | none => datetimeMin

/-- Placeholder entry for `headD`/`getLastD` (never used on the non-empty
lists the composer handles). -/
def defaultEntry : TelemetryEntry := ⟨"", 0, []⟩

/-- The project-level running state threaded through the member loop:
the reports collection, the reports inserted this tick, and the group
accumulators (`project_all_emotion_entries`, `project_all_commit_messages`,
`project_min_start_time`, `project_max_end_time`, `processed_user_count`,
`individual_summaries_for_group`). -/
structure ProjAcc where
  reports : List Report
  inserted : List Report
  entries : List TelemetryEntry
  commits : List String
  minStart : Option Time
  maxEnd : Option Time
  count : Nat
  summaries : List (String × String)
  deriving DecidableEq

/-- `if project_min_start_time is None or t < project_min_start_time`. -/
def updateMin (cur : Option Time) (t : Time) : Option Time :=
  match cur with
  | none => some t
  | some m => if t < m then some t else some m

/-- `if project_max_end_time is None or t > project_max_end_time`. -/
def updateMax (cur : Option Time) (t : Time) : Option Time :=
  match cur with
  | none => some t
  | some m => if m < t then some t else some m

/-- Everything the composer computes for one member before calling the
synthesizer. -/
structure StepCtx where
  user : User
  email : String
  last_report : Option Report
  newData : List TelemetryEntry
  start_time : Time
  end_time : Time
  avg : List (String × ℚ)
  commit_messages : List String
  slack_messages : List String
  prevs : List Report
  username : String

/-- Lines 400-511: resolve the user, the watermark, the window and the signal
data for one member; `none` when the member is skipped (no user document, no
usable email, or no new telemetry). -/
def stepCtx (env : Env) (pid : String) (now : Time) (reports : List Report)
    (uid : String) : Option StepCtx :=
  match env.users.find? (fun u => u.user_id == uid) with
  | none => none
  | some u =>
    match u.email with
    | none => none
    | some email =>
      if email = "" then none
      else
        let last_report := findLatestIndividual reports uid pid
        let newData :=
          sortEntries (windowFilter env.emotions uid (lastReportTime reports uid pid) now)
        match newData with
        | [] => none
        | e0 :: rest =>
          -- start_time = last_report_time if last_report else new_emotions_data[0].timestamp
          let start_time :=
            match last_report with
            | some r => r.end_time
            | none => e0.timestamp
          let end_time := ((e0 :: rest).getLastD defaultEntry).timestamp
          some
            { user := u
              email := email
              last_report := last_report
              newData := e0 :: rest
              start_time := start_time
              end_time := end_time
              avg := averageEmotions (e0 :: rest)
              commit_messages := env.fetchCommits pid email start_time end_time
              slack_messages := env.fetchSlack uid start_time end_time
              prevs := previousReports reports uid pid
              username := u.username.getD "Unknown" }

/-- The `GenCall` the composer makes for one member (lines 512-520). -/
def individualCall (ctx : StepCtx) : GenCall :=
  { avg_emotions := ctx.avg
    commits := ctx.commit_messages
    slack_messages := ctx.slack_messages
    report_type := "Individual for " ++ ctx.username
    previous_reports := ctx.prevs
    individual_summaries := none }

/-- The accumulator update performed for every member with new telemetry,
before the synthesizer runs (lines 445-487). -/
def accumulateMember (acc : ProjAcc) (ctx : StepCtx) : ProjAcc :=
  { acc with
    count := acc.count + 1
    entries := acc.entries ++ ctx.newData
    commits := acc.commits ++ ctx.commit_messages
    minStart := updateMin acc.minStart (ctx.newData.headD defaultEntry).timestamp
    maxEnd := updateMax acc.maxEnd (ctx.newData.getLastD defaultEntry).timestamp }

/-- The individual report document inserted on synthesis success
(lines 532-547). -/
def mkIndReport (pid : String) (now : Time) (uid : String) (ctx : StepCtx)
    (summary : String) (is_alarm : Bool) (alarm_message : Option String) : Report :=
  { user_id := some uid
    project_id := pid
    report_timestamp := now
    start_time := ctx.start_time
    end_time := ctx.end_time
    average_emotions := ctx.avg
    mood_summary := summary
    processed_entries := ctx.newData.length
    commit_count := ctx.commit_messages.length
    processed_user_count := none
    report_type := "individual"
    is_alarm := is_alarm
    alarm_message := alarm_message }

/-- Lines 400-550: process one member.  The group accumulators are updated as
soon as the member has new telemetry — before the synthesizer runs — while the
report insert and the summary accumulation happen only on synthesis success. -/
def processUser (env : Env) (pid : String) (now : Time) (acc : ProjAcc)
    (uid : String) : ProjAcc :=
  match stepCtx env pid now acc.reports uid with
  | none => acc
  | some ctx =>
    let acc1 := accumulateMember acc ctx
    match get_mood_summary_from_llm env.gen (individualCall ctx) with
    | (none, _, _) => acc1
    | (some summary, is_alarm, alarm_message) =>
      let report := mkIndReport pid now uid ctx summary is_alarm alarm_message
      { acc1 with
        reports := acc1.reports ++ [report]
        inserted := acc1.inserted ++ [report]
        summaries := acc1.summaries ++ [(ctx.username, summary)] }

/-- The member loop of one project, starting from the current reports state. -/
def memberFold (env : Env) (now : Time) (reports : List Report) (p : Project) : ProjAcc :=
  p.members.foldl (processUser env p.project_id now)
    { reports := reports, inserted := [], entries := [], commits := []
      minStart := none, maxEnd := none, count := 0, summaries := [] }

/-- The `GenCall` the composer makes for the group report (lines 575-583;
`previous_reports=None` and an empty Slack list). -/
def groupCall (acc : ProjAcc) : GenCall :=
  { avg_emotions := averageEmotions acc.entries
    commits := acc.commits
    slack_messages := []
    report_type := "Group"
    previous_reports := []
    individual_summaries := some acc.summaries }

/-- The group report document inserted on group-synthesis success (lines
591-607).  The `getD` defaults are never reached: the gate guarantees the
min/max accumulators are set. -/
def mkGroupReport (pid : String) (now : Time) (acc : ProjAcc) (gsum : String) : Report :=
  { user_id := none
    project_id := pid
    report_timestamp := now
    start_time := acc.minStart.getD datetimeMin
    end_time := acc.maxEnd.getD datetimeMin
    average_emotions := averageEmotions acc.entries
    mood_summary := gsum
    processed_entries := acc.entries.length
    commit_count := acc.commits.length
    processed_user_count := some acc.count
    report_type := "group"
    is_alarm := false
    alarm_message := none }

/-- Lines 384-608: one project of the tick.  After the member loop, the group
report is gated on `processed_user_count > 0 and project_all_emotion_entries`
and skipped when the group synthesis fails. -/
def processProject (env : Env) (now : Time) (reports : List Report) (p : Project) : ProjAcc :=
  let acc := memberFold env now reports p
  if acc.count > 0 && !acc.entries.isEmpty then
    match get_mood_summary_from_llm env.gen (groupCall acc) with
    | (none, _, _) => acc
    | (some gsum, _, _) =>
      let greport := mkGroupReport p.project_id now acc gsum
      { acc with
        reports := acc.reports ++ [greport]
        inserted := acc.inserted ++ [greport] }
  else acc

/-- `process_emotions_and_repos`, one tick at instant `now`: fold over the
projects, threading the reports collection; returns the final collection and
the list of reports inserted this tick. -/
def process_emotions_and_repos (env : Env) (now : Time) : List Report × List Report :=
  env.projects.foldl
    (fun st p =>
      let acc := processProject env now st.1 p
      (acc.reports, st.2 ++ acc.inserted))
    (env.mood_reports, [])

/-! ### Concrete environments used to evaluate the model -/

/-- A fully succeeding run: one project, one member, two telemetry entries,
no prior reports. -/
def envA : Env :=
  { projects := [⟨"p", ["u1"]⟩]
    users := [⟨"u1", some "e1", some "Alice"⟩]
    emotions :=
      [⟨"u1", 5, [("happy", EmotionVal.num (1/2))]⟩,
       ⟨"u1", 7, [("happy", EmotionVal.num (1/4)), ("sad", EmotionVal.num (1/2))]⟩]
    mood_reports := []
    fetchCommits := fun _ _ _ _ => ["c1"]
    fetchSlack := fun _ _ _ => ["Alice: hi"]
    gen := fun c =>
      if strContains c.report_type "Group" then some "team is fine" else some "doing ok" }

/-- A run where the generation service is down for every call. -/
def envGenFail : Env :=
  { envA with gen := fun _ => none }

/-- A run where the single member's individual synthesis fails but the group
synthesis succeeds. -/
def envGroupOnly : Env :=
  { envA with
    gen := fun c =>
      match c.individual_summaries with
      | some _ => some "team vibe"
      | none => none }

/-- An already-stored individual report for user `u1` in project `p`, ending at
time 3. -/
def rPrior : Report :=
  { user_id := some "u1", project_id := "p", report_timestamp := 1, start_time := 0
    end_time := 3, average_emotions := [], mood_summary := "old", processed_entries := 1
    commit_count := 0, processed_user_count := none, report_type := "individual"
    is_alarm := false, alarm_message := none }

/-- A member whose stored username is the string `"Group"`, with one prior
report, whose generator answers with the alarm marker; the group call fails so
only the individual path runs. -/
def envC5 : Env :=
  { projects := [⟨"p", ["u1"]⟩]
    users := [⟨"u1", some "e1", some "Group"⟩]
    emotions := [⟨"u1", 5, [("sad", EmotionVal.num (9/10))]⟩]
    mood_reports := [rPrior]
    fetchCommits := fun _ _ _ _ => []
    fetchSlack := fun _ _ _ => []
    gen := fun c =>
      match c.individual_summaries with
      | some _ => none
      | none => some "ALARM: overload" }

/-- A member with one prior report whose generator signals a genuine alarm. -/
def envAlarm : Env :=
  { projects := [⟨"p", ["u1"]⟩]
    users := [⟨"u1", some "e1", some "Alice"⟩]
    emotions := [⟨"u1", 5, [("sad", EmotionVal.num (9/10))]⟩]
    mood_reports := [rPrior]
    fetchCommits := fun _ _ _ _ => []
    fetchSlack := fun _ _ _ => []
    gen := fun c =>
      match c.individual_summaries with
      | some _ => some "grp"
      | none => some "ALARM: stress rising\ndetails follow" }

/-- Two members: `u1`'s individual synthesis fails, `u2`'s succeeds, the group
call succeeds, and only `u1` has a commit in the window. -/
def envC8 : Env :=
  { projects := [⟨"p", ["u1", "u2"]⟩]
    users := [⟨"u1", some "e1", some "Alice"⟩, ⟨"u2", some "e2", some "Bob"⟩]
    emotions :=
      [⟨"u1", 3, [("happy", EmotionVal.num (1/2))]⟩,
       ⟨"u2", 4, [("sad", EmotionVal.num (1/3))]⟩]
    mood_reports := []
    fetchCommits := fun _ email _ _ => if email == "e1" then ["a-commit"] else []
    fetchSlack := fun _ _ _ => []
    gen := fun c =>
      if c.report_type == "Individual for Bob" then some "bob fine"
      else if strContains c.report_type "Group" then some "grp"
      else none }

/-! ### Concrete values used by witnesses and counterexamples -/

def pW : Project := ⟨"p", ["u1"]⟩

def pW8 : Project := ⟨"p", ["u1", "u2"]⟩

/-- The empty starting accumulator of a member loop over an empty store. -/
def accW : ProjAcc := ⟨[], [], [], [], none, none, 0, []⟩

/-- The starting accumulator when `rPrior` is already stored. -/
def accAlarmW : ProjAcc := ⟨[rPrior], [], [], [], none, none, 0, []⟩

def e5 : TelemetryEntry := ⟨"u1", 5, [("happy", EmotionVal.num (1/2))]⟩

def e7 : TelemetryEntry :=
  ⟨"u1", 7, [("happy", EmotionVal.num (1/4)), ("sad", EmotionVal.num (1/2))]⟩

def eSad : TelemetryEntry := ⟨"u1", 5, [("sad", EmotionVal.num (9/10))]⟩

def e3 : TelemetryEntry := ⟨"u1", 3, [("happy", EmotionVal.num (1/2))]⟩

def e4 : TelemetryEntry := ⟨"u2", 4, [("sad", EmotionVal.num (1/3))]⟩

/-- The member context computed for `u1` in `envA`/`envGenFail`/`envGroupOnly`. -/
def ctxW : StepCtx :=
  { user := ⟨"u1", some "e1", some "Alice"⟩
    email := "e1"
    last_report := none
    newData := [e5, e7]
    start_time := 5
    end_time := 7
    avg := averageEmotions [e5, e7]
    commit_messages := ["c1"]
    slack_messages := ["Alice: hi"]
    prevs := []
    username := "Alice" }

/-- The individual report `envA` produces for `u1`. -/
def rW3 : Report := mkIndReport "p" 10 "u1" ctxW "doing ok" false none

/-- The member context computed for `u1` in `envAlarm`. -/
def ctxAlarmW : StepCtx :=
  { user := ⟨"u1", some "e1", some "Alice"⟩
    email := "e1"
    last_report := some rPrior
    newData := [eSad]
    start_time := 3
    end_time := 5
    avg := averageEmotions [eSad]
    commit_messages := []
    slack_messages := []
    prevs := [rPrior]
    username := "Alice" }

/-- The alarm report `envAlarm` produces for `u1`. -/
def rAlarmW : Report :=
  mkIndReport "p" 10 "u1" ctxAlarmW "ALARM: stress rising\ndetails follow" true
    (some "stress rising")

/-- The member context computed for `u1` in `envC8` (the failing member). -/
def ctxC8u1 : StepCtx :=
  { user := ⟨"u1", some "e1", some "Alice"⟩
    email := "e1"
    last_report := none
    newData := [e3]
    start_time := 3
    end_time := 3
    avg := averageEmotions [e3]
    commit_messages := ["a-commit"]
    slack_messages := []
    prevs := []
    username := "Alice" }

/-- The member context computed for `u2` in `envC8` (the succeeding member). -/
def ctxC8u2 : StepCtx :=
  { user := ⟨"u2", some "e2", some "Bob"⟩
    email := "e2"
    last_report := none
    newData := [e4]
    start_time := 4
    end_time := 4
    avg := averageEmotions [e4]
    commit_messages := []
    slack_messages := []
    prevs := []
    username := "Bob" }

/-- The individual report `envC8` produces for `u2`. -/
def rBobW : Report := mkIndReport "p" 10 "u2" ctxC8u2 "bob fine" false none

/-- The group report `envC8` produces. -/
def gW8 : Report := mkGroupReport "p" 10 (memberFold envC8 10 [] pW8) "grp"

/-- The group report `envGroupOnly` produces. -/
def gW4 : Report := mkGroupReport "p" 10 (memberFold envGroupOnly 10 [] pW) "team vibe"

/-- A group-report synthesizer call. -/
def cIneligible : GenCall := ⟨[], [], [], "Group", [], none⟩

/-- An alarm-eligible individual synthesizer call. -/
def cEligible : GenCall := ⟨[], [], [], "Individual for Alice", [rPrior], none⟩

/-- The synthesizer call made for a member whose stored username is `"Group"`,
with one prior report. -/
def cGroupUser : GenCall := ⟨[], [], [], "Individual for Group", [rPrior], none⟩

def genAlarm1 : GenCall → Option String := fun _ => some "ALARM: overload"

def genAlarm2 : GenCall → Option String := fun _ => some "ALARM: \nfeeling low"

def genAlarm3 : GenCall → Option String := fun _ => some "ALARM: stress high\nmore"

/-- The spec's aggregation example: `[{happy:0.2},{happy:0.6,sad:0.4}]`. -/
def exC6 : List TelemetryEntry :=
  [⟨"u", 1, [("happy", EmotionVal.num (1/5))]⟩,
   ⟨"u", 2, [("happy", EmotionVal.num (3/5)), ("sad", EmotionVal.num (2/5))]⟩]

/-! ## Helper lemmas -/

theorem mem_dedupFirst_aux {α : Type} [DecidableEq α] (l acc : List α) (x : α) :
    x ∈ l.foldl (fun acc x => if x ∈ acc then acc else acc ++ [x]) acc ↔ x ∈ acc ∨ x ∈ l := by
  induction l generalizing acc with
  | nil => simp
  | cons y ys ih =>
    simp only [List.foldl_cons]
    rw [ih]
    by_cases h : y ∈ acc
    · rw [if_pos h]
      constructor
      · rintro (hx | hx)
        · exact Or.inl hx
        · exact Or.inr (List.mem_cons_of_mem _ hx)
      · rintro (hx | hx)
        · exact Or.inl hx
        · rcases List.mem_cons.mp hx with rfl | hx
          · exact Or.inl h
          · exact Or.inr hx
    · rw [if_neg h]
      constructor
      · rintro (hx | hx)
        · rcases List.mem_append.mp hx with hx | hx
          · exact Or.inl hx
          · simp only [List.mem_singleton] at hx
            subst hx
            exact Or.inr (List.mem_cons_self _ _)
        · exact Or.inr (List.mem_cons_of_mem _ hx)
      · rintro (hx | hx)
        · exact Or.inl (List.mem_append.mpr (Or.inl hx))
        · rcases List.mem_cons.mp hx with rfl | hx
          · exact Or.inl (List.mem_append.mpr (Or.inr (List.mem_singleton.mpr rfl)))
          · exact Or.inr hx

theorem mem_dedupFirst {α : Type} [DecidableEq α] (l : List α) (x : α) :
    x ∈ dedupFirst l ↔ x ∈ l := by
  unfold dedupFirst
  rw [mem_dedupFirst_aux]
  simp

theorem nodup_dedupFirst_aux {α : Type} [DecidableEq α] (l acc : List α) (h : acc.Nodup) :
    (l.foldl (fun acc x => if x ∈ acc then acc else acc ++ [x]) acc).Nodup := by
  induction l generalizing acc with
  | nil => simpa
  | cons y ys ih =>
    simp only [List.foldl_cons]
    by_cases hy : y ∈ acc
    · rw [if_pos hy]
      exact ih _ h
    · rw [if_neg hy]
      refine ih _ ?_
      simp [List.nodup_append, h, hy]

theorem nodup_dedupFirst {α : Type} [DecidableEq α] (l : List α) :
    (dedupFirst l).Nodup := by
  unfold dedupFirst
  exact nodup_dedupFirst_aux l [] List.nodup_nil

theorem mem_insertByTs (e a : TelemetryEntry) (l : List TelemetryEntry) :
    a ∈ insertByTs e l ↔ a = e ∨ a ∈ l := by
  induction l with
  | nil => simp [insertByTs]
  | cons x xs ih =>
    simp only [insertByTs]
    split
    · simp [List.mem_cons]
    · simp only [List.mem_cons, ih]
      tauto

theorem length_insertByTs (e : TelemetryEntry) (l : List TelemetryEntry) :
    (insertByTs e l).length = l.length + 1 := by
  induction l with
  | nil => rfl
  | cons x xs ih =>
    simp only [insertByTs]
    split
    · simp
    · simp only [List.length_cons, ih]

theorem mem_sortEntries (l : List TelemetryEntry) (a : TelemetryEntry) :
    a ∈ sortEntries l ↔ a ∈ l := by
  induction l with
  | nil => simp [sortEntries]
  | cons x xs ih =>
    show a ∈ insertByTs x (sortEntries xs) ↔ _
    rw [mem_insertByTs, ih]
    simp [List.mem_cons]

theorem length_sortEntries (l : List TelemetryEntry) :
    (sortEntries l).length = l.length := by
  induction l with
  | nil => rfl
  | cons x xs ih =>
    show (insertByTs x (sortEntries xs)).length = _
    rw [length_insertByTs, ih]
    rfl

theorem sortEntries_eq_nil_iff (l : List TelemetryEntry) :
    sortEntries l = [] ↔ l = [] := by
  constructor
  · intro h
    have := length_sortEntries l
    rw [h] at this
    exact List.length_eq_zero.mp this.symm
  · rintro rfl
    rfl

theorem pairwise_insertByTs (e : TelemetryEntry) (l : List TelemetryEntry)
    (h : l.Pairwise (fun a b => a.timestamp ≤ b.timestamp)) :
    (insertByTs e l).Pairwise (fun a b => a.timestamp ≤ b.timestamp) := by
  induction l with
  | nil => simp [insertByTs]
  | cons x xs ih =>
    simp only [insertByTs]
    rcases List.pairwise_cons.mp h with ⟨hx, hxs⟩
    split
    · rename_i hle
      refine List.pairwise_cons.mpr ⟨?_, h⟩
      intro b hb
      rcases List.mem_cons.mp hb with rfl | hb
      · exact hle
      · exact le_trans hle (hx b hb)
    · rename_i hgt
      refine List.pairwise_cons.mpr ⟨?_, ih hxs⟩
      intro b hb
      rcases (mem_insertByTs e b xs).mp hb with rfl | hb
      · exact le_of_not_le hgt
      · exact hx b hb

theorem pairwise_sortEntries (l : List TelemetryEntry) :
    (sortEntries l).Pairwise (fun a b => a.timestamp ≤ b.timestamp) := by
  induction l with
  | nil => exact List.Pairwise.nil
  | cons x xs ih => exact pairwise_insertByTs x (sortEntries xs) ih

theorem pairwise_headD_le (l : List TelemetryEntry)
    (h : l.Pairwise (fun a b => a.timestamp ≤ b.timestamp)) :
    ∀ a ∈ l, (l.headD defaultEntry).timestamp ≤ a.timestamp := by
  cases l with
  | nil => intro a ha; cases ha
  | cons x xs =>
    intro a ha
    rcases List.mem_cons.mp ha with rfl | ha
    · exact le_refl _
    · exact (List.pairwise_cons.mp h).1 a ha

theorem pairwise_le_getLastD (l : List TelemetryEntry)
    (h : l.Pairwise (fun a b => a.timestamp ≤ b.timestamp)) :
    ∀ a ∈ l, a.timestamp ≤ (l.getLastD defaultEntry).timestamp := by
  induction l with
  | nil => intro a ha; cases ha
  | cons x xs ih =>
    intro a ha
    rcases List.pairwise_cons.mp h with ⟨hx, hxs⟩
    cases xs with
    | nil =>
      rcases List.mem_cons.mp ha with rfl | ha
      · exact le_refl _
      · cases ha
    | cons y ys =>
      have hlast : ((x :: y :: ys).getLastD defaultEntry) = ((y :: ys).getLastD defaultEntry) := by
        simp [List.getLastD]
      rw [hlast]
      rcases List.mem_cons.mp ha with rfl | ha
      · exact le_trans (hx y (List.mem_cons_self _ _)) (ih hxs y (List.mem_cons_self _ _))
      · exact ih hxs a ha

theorem getLastD_mem (l : List TelemetryEntry) (h : l ≠ []) :
    l.getLastD defaultEntry ∈ l := by
  induction l with
  | nil => exact absurd rfl h
  | cons x xs ih =>
    cases xs with
    | nil => simp [List.getLastD]
    | cons y ys =>
      have : ((x :: y :: ys).getLastD defaultEntry) = ((y :: ys).getLastD defaultEntry) := by
        simp [List.getLastD]
      rw [this]
      exact List.mem_cons_of_mem _ (ih (by simp))

theorem headD_mem (l : List TelemetryEntry) (h : l ≠ []) :
    l.headD defaultEntry ∈ l := by
  cases l with
  | nil => exact absurd rfl h
  | cons x xs => exact List.mem_cons_self _ _

theorem latestFold_some_ne_none (l : List Report) (b : Report) :
    l.foldl latestFold (some b) ≠ none := by
  induction l generalizing b with
  | nil => simp
  | cons r rs ih =>
    simp only [List.foldl_cons, latestFold]
    split
    · exact ih _
    · exact ih _

theorem findLatestIndividual_eq_none_iff (reports : List Report) (uid pid : String) :
    findLatestIndividual reports uid pid = none ↔
      reports.filter (isIndividualFor uid pid) = [] := by
  unfold findLatestIndividual
  cases h : reports.filter (isIndividualFor uid pid) with
  | nil => simp
  | cons r rs =>
    simp only [List.foldl_cons, latestFold]
    constructor
    · intro hc
      exact absurd hc (latestFold_some_ne_none rs r)
    · intro hc
      cases hc

theorem length_insertByEndDesc (r : Report) (l : List Report) :
    (insertByEndDesc r l).length = l.length + 1 := by
  induction l with
  | nil => rfl
  | cons x xs ih =>
    simp only [insertByEndDesc]
    split
    · simp
    · simp only [List.length_cons, ih]

theorem length_sortByEndDesc (l : List Report) :
    (sortByEndDesc l).length = l.length := by
  induction l with
  | nil => rfl
  | cons x xs ih =>
    show (insertByEndDesc x (sortByEndDesc xs)).length = _
    rw [length_insertByEndDesc, ih]
    rfl

theorem sortByEndDesc_eq_nil_iff (l : List Report) :
    sortByEndDesc l = [] ↔ l = [] := by
  constructor
  · intro h
    have := length_sortByEndDesc l
    rw [h] at this
    exact List.length_eq_zero.mp this.symm
  · rintro rfl
    rfl

theorem previousReports_eq_nil_iff (reports : List Report) (uid pid : String) :
    previousReports reports uid pid = [] ↔
      reports.filter (isIndividualFor uid pid) = [] := by
  unfold previousReports
  rw [List.take_eq_nil_iff]
  simp [sortByEndDesc_eq_nil_iff]

theorem previousReports_nil_iff_findLatest_none (reports : List Report) (uid pid : String) :
    previousReports reports uid pid = [] ↔ findLatestIndividual reports uid pid = none := by
  rw [previousReports_eq_nil_iff, findLatestIndividual_eq_none_iff]

/-! ### Aggregation lemmas (towards C6) -/

theorem filter_entryNumericPairs_of_not_mem (em : List (String × EmotionVal)) (k : String)
    (h : k ∉ em.map Prod.fst) :
    (em.filterMap (fun p => (toNumVal p.2).map (fun v => (p.1, v)))).filter
      (fun p => p.1 == k) = [] := by
  induction em with
  | nil => rfl
  | cons a rest ih =>
    simp only [List.map_cons, List.mem_cons] at h
    push_neg at h
    simp only [List.filterMap_cons]
    cases hv : toNumVal a.2 with
    | none => exact ih h.2
    | some v =>
      simp only [Option.map_some']
      rw [List.filter_cons_of_neg]
      · exact ih h.2
      · simp only [beq_iff_eq]
        exact fun hc => h.1 hc.symm

theorem filter_filterMap_lookup (em : List (String × EmotionVal)) (k : String)
    (h : (em.map Prod.fst).Nodup) :
    (em.filterMap (fun p => (toNumVal p.2).map (fun v => (p.1, v)))).filter
        (fun p => p.1 == k) =
      match (em.lookup k).bind toNumVal with
      | some v => [(k, v)]
      | none => [] := by
  induction em with
  | nil => rfl
  | cons a rest ih =>
    simp only [List.map_cons, List.nodup_cons] at h
    simp only [List.filterMap_cons, List.lookup]
    by_cases hk : k = a.1
    · have hbeq : (k == a.1) = true := by simp [hk]
      rw [hbeq]
      cases hv : toNumVal a.2 with
      | none =>
        simp only [Option.map_none']
        rw [hk, filter_entryNumericPairs_of_not_mem rest a.1 h.1]
        simp [hv]
      | some v =>
        simp only [Option.map_some']
        rw [List.filter_cons_of_pos (by simp [hk])]
        rw [hk, filter_entryNumericPairs_of_not_mem rest a.1 h.1]
        simp [hv]
    · have hbeq : (k == a.1) = false := by simp [hk]
      rw [hbeq]
      cases hv : toNumVal a.2 with
      | none =>
        simp only [Option.map_none']
        exact ih h.2
      | some v =>
        simp only [Option.map_some']
        rw [List.filter_cons_of_neg (by simp [Ne.symm hk])]
        exact ih h.2

theorem filter_entryNumericPairs (e : TelemetryEntry) (k : String)
    (h : (e.emotions.map Prod.fst).Nodup) :
    (entryNumericPairs e).filter (fun p => p.1 == k) =
      match entryNumValue k e with
      | some v => [(k, v)]
      | none => [] :=
  filter_filterMap_lookup e.emotions k h

theorem sum_count_filterMap (entries : List TelemetryEntry) (k : String)
    (h : ∀ e ∈ entries, (e.emotions.map Prod.fst).Nodup) :
    emotionSum entries k = (entries.filterMap (entryNumValue k)).sum ∧
      emotionCount entries k = (entries.filterMap (entryNumValue k)).length := by
  induction entries with
  | nil => exact ⟨rfl, rfl⟩
  | cons e es ih =>
    have he : (e.emotions.map Prod.fst).Nodup := h e (List.mem_cons_self _ _)
    have hes : ∀ x ∈ es, (x.emotions.map Prod.fst).Nodup :=
      fun x hx => h x (List.mem_cons_of_mem _ hx)
    rcases ih hes with ⟨ihs, ihc⟩
    have hnp : numericPairs (e :: es) = entryNumericPairs e ++ numericPairs es := by
      simp [numericPairs]
    constructor
    · unfold emotionSum
      rw [hnp, List.filter_append, List.map_append, List.sum_append]
      rw [filter_entryNumericPairs e k he]
      unfold emotionSum at ihs
      cases hv : entryNumValue k e with
      | none => simpa [hv] using ihs
      | some v => simp [hv, ihs]
    · unfold emotionCount
      rw [hnp, List.filter_append, List.length_append]
      rw [filter_entryNumericPairs e k he]
      unfold emotionCount at ihc
      cases hv : entryNumValue k e with
      | none => simpa [hv] using ihc
      | some v =>
        simp only [hv, List.filterMap_cons]
        simp [ihc]
        omega

theorem mem_emotionKeys_iff (entries : List TelemetryEntry) (k : String) :
    k ∈ emotionKeys entries ↔ emotionCount entries k ≠ 0 := by
  unfold emotionKeys emotionCount
  rw [mem_dedupFirst]
  constructor
  · intro hk
    rcases List.mem_map.mp hk with ⟨p, hp, hpk⟩
    intro hlen
    rw [List.length_eq_zero] at hlen
    have : p ∈ (numericPairs entries).filter (fun p => p.1 == k) :=
      List.mem_filter.mpr ⟨hp, by simp [hpk]⟩
    rw [hlen] at this
    cases this
  · intro hlen
    cases hf : (numericPairs entries).filter (fun p => p.1 == k) with
    | nil => exact absurd (by rw [hf]; rfl) hlen
    | cons p ps =>
      have hp : p ∈ (numericPairs entries).filter (fun p => p.1 == k) := by
        rw [hf]; exact List.mem_cons_self _ _
      rcases List.mem_filter.mp hp with ⟨hmem, hbeq⟩
      exact List.mem_map.mpr ⟨p, hmem, by simpa using hbeq⟩

theorem lookup_map_graph (l : List String) (f : String → ℚ) (k : String) :
    ((l.map (fun a => (a, f a))).lookup k) = if k ∈ l then some (f k) else none := by
  induction l with
  | nil => simp [List.lookup]
  | cons a rest ih =>
    simp only [List.map_cons, List.lookup]
    by_cases hk : k = a
    · simp [hk]
    · have : (k == a) = false := by simp [hk]
      rw [this]
      simp only [List.mem_cons]
      rw [ih]
      by_cases hr : k ∈ rest
      · simp [hr]
      · simp [hr, hk]

/-! ### Synthesizer lemmas -/

theorem gms_fail (gen : GenCall → Option String) (c : GenCall)
    (h : gen c = none ∨ gen c = some "") :
    get_mood_summary_from_llm gen c = (none, false, none) := by
  rcases h with h | h <;> simp [get_mood_summary_from_llm, h]

theorem gms_ineligible (gen : GenCall → Option String) (c : GenCall)
    (h : c.previous_reports = [] ∨ strContains c.report_type "Group" = true) :
    (get_mood_summary_from_llm gen c).2.1 = false ∧
      (get_mood_summary_from_llm gen c).2.2 = none := by
  cases hg : gen c with
  | none => simp [get_mood_summary_from_llm, hg]
  | some full =>
    by_cases hne : full = ""
    · simp [get_mood_summary_from_llm, hg, hne]
    · have hcond : (c.previous_reports.isEmpty || strContains c.report_type "Group") = true := by
        rcases h with h | h
        · simp [h]
        · simp [h]
      simp [get_mood_summary_from_llm, hg, hne, hcond]

theorem gms_ineligible_summary (gen : GenCall → Option String) (c : GenCall) (full : String)
    (h : c.previous_reports = [] ∨ strContains c.report_type "Group" = true)
    (hg : gen c = some full) (hne : full ≠ "") :
    (get_mood_summary_from_llm gen c).1 =
      some (if startsWithStr full alarmMarker then
              pyLStrip (dropStr alarmMarker.data.length full)
            else full) := by
  have hcond : (c.previous_reports.isEmpty || strContains c.report_type "Group") = true := by
    rcases h with h | h
    · simp [h]
    · simp [h]
  simp [get_mood_summary_from_llm, hg, hne, hcond]

theorem gms_eligible (gen : GenCall → Option String) (c : GenCall) (full : String)
    (hprev : c.previous_reports ≠ []) (hng : strContains c.report_type "Group" = false)
    (hg : gen c = some full) (hne : full ≠ "") :
    get_mood_summary_from_llm gen c =
      (some full,
       startsWithStr full alarmMarker && strContains c.report_type "Individual",
       if (startsWithStr full alarmMarker && strContains c.report_type "Individual") = true then
         some (firstLineStr (pyStrip (dropStr alarmMarker.data.length full)))
       else none) := by
  have hemp : c.previous_reports.isEmpty = false := by
    cases hc : c.previous_reports with
    | nil => exact absurd hc hprev
    | cons a l => rfl
  simp [get_mood_summary_from_llm, hg, hne, hemp, hng]

theorem gms_alarm_inv (gen : GenCall → Option String) (c : GenCall)
    (h : (get_mood_summary_from_llm gen c).2.1 = true) :
    ∃ full, gen c = some full ∧ full ≠ "" ∧ startsWithStr full alarmMarker = true ∧
      c.previous_reports ≠ [] ∧ strContains c.report_type "Group" = false ∧
      strContains c.report_type "Individual" = true ∧
      (get_mood_summary_from_llm gen c).1 = some full := by
  cases hg : gen c with
  | none => rw [gms_fail gen c (Or.inl hg)] at h; cases h
  | some full =>
    by_cases hne : full = ""
    · rw [gms_fail gen c (Or.inr (hne ▸ hg))] at h; cases h
    · by_cases hprev : c.previous_reports = []
      · rcases gms_ineligible gen c (Or.inl hprev) with ⟨hfa, _⟩
        rw [hfa] at h; cases h
      · by_cases hng : strContains c.report_type "Group" = true
        · rcases gms_ineligible gen c (Or.inr hng) with ⟨hfa, _⟩
          rw [hfa] at h; cases h
        · have hng' : strContains c.report_type "Group" = false := by
            cases hb : strContains c.report_type "Group"
            · rfl
            · exact absurd hb hng
          have heq := gms_eligible gen c full hprev hng' hg hne
          rw [heq] at h
          simp only [Bool.and_eq_true] at h
          refine ⟨full, rfl, hne, h.1, hprev, hng', h.2, ?_⟩
          rw [heq]

theorem gms_summary_modified (gen : GenCall → Option String) (c : GenCall) (full : String)
    (hg : gen c = some full) (hne : full ≠ "")
    (hmod : (get_mood_summary_from_llm gen c).1 ≠ some full) :
    (c.previous_reports = [] ∨ strContains c.report_type "Group" = true) ∧
      startsWithStr full alarmMarker = true ∧
      (get_mood_summary_from_llm gen c).1 =
        some (pyLStrip (dropStr alarmMarker.data.length full)) := by
  by_cases hinel : c.previous_reports = [] ∨ strContains c.report_type "Group" = true
  · have hs := gms_ineligible_summary gen c full hinel hg hne
    by_cases hm : startsWithStr full alarmMarker = true
    · refine ⟨hinel, hm, ?_⟩
      rw [hs, if_pos hm]
    · rw [hs, if_neg hm] at hmod
      exact absurd rfl hmod
  · push_neg at hinel
    have hng : strContains c.report_type "Group" = false := by
      cases hb : strContains c.report_type "Group"
      · rfl
      · exact absurd hb hinel.2
    have heq := gms_eligible gen c full hinel.1 hng hg hne
    rw [heq] at hmod
    exact absurd rfl hmod

/-! ### Slack fetcher lemmas -/

theorem slackMsgOut_eq_some_iff (st : SlackState) (m : SlackMsg) (s : String) :
    (match m.text with
      | none => none
      | some t =>
        match st.display_name m.user with
        | none => none
        | some name => some (name ++ ": " ++ t)) = some s ↔
      ∃ t, m.text = some t ∧ ∃ n, st.display_name m.user = some n ∧ s = n ++ ": " ++ t := by
  cases ht : m.text with
  | none => simp
  | some t =>
    cases hn : st.display_name m.user with
    | none => simp
    | some n =>
      simp only [Option.some.injEq]
      constructor
      · intro h
        exact ⟨t, rfl, n, rfl, h.symm⟩
      · rintro ⟨t', ht', n', hn', rfl⟩
        cases ht'
        cases hn'
        rfl

/-! ### Composer lemmas -/

theorem accumulateMember_reports (acc : ProjAcc) (ctx : StepCtx) :
    (accumulateMember acc ctx).reports = acc.reports := rfl

theorem accumulateMember_inserted (acc : ProjAcc) (ctx : StepCtx) :
    (accumulateMember acc ctx).inserted = acc.inserted := rfl

theorem accumulateMember_summaries (acc : ProjAcc) (ctx : StepCtx) :
    (accumulateMember acc ctx).summaries = acc.summaries := rfl

theorem accumulateMember_entries (acc : ProjAcc) (ctx : StepCtx) :
    (accumulateMember acc ctx).entries = acc.entries ++ ctx.newData := rfl

theorem accumulateMember_commits (acc : ProjAcc) (ctx : StepCtx) :
    (accumulateMember acc ctx).commits = acc.commits ++ ctx.commit_messages := rfl

theorem accumulateMember_count (acc : ProjAcc) (ctx : StepCtx) :
    (accumulateMember acc ctx).count = acc.count + 1 := rfl

theorem stepCtx_spec (env : Env) (pid : String) (now : Time) (reports : List Report)
    (uid : String) (ctx : StepCtx)
    (h : stepCtx env pid now reports uid = some ctx) :
    ctx.newData = sortEntries (windowFilter env.emotions uid (lastReportTime reports uid pid) now) ∧
    ctx.newData ≠ [] ∧
    ctx.prevs = previousReports reports uid pid ∧
    (∀ r, findLatestIndividual reports uid pid = some r → ctx.start_time = r.end_time) ∧
    (findLatestIndividual reports uid pid = none →
      ctx.start_time = (ctx.newData.headD defaultEntry).timestamp) ∧
    ctx.end_time = (ctx.newData.getLastD defaultEntry).timestamp ∧
    ctx.avg = averageEmotions ctx.newData := by
  simp only [stepCtx] at h
  split at h
  · exact Option.noConfusion h
  · rename_i u hu
    split at h
    · exact Option.noConfusion h
    · rename_i email hemail
      split at h
      · exact Option.noConfusion h
      · split at h
        · exact Option.noConfusion h
        · rename_i e0 rest hdata
          injection h with h
          subst h
          refine ⟨hdata.symm, by simp, rfl, ?_, ?_, rfl, rfl⟩
          · intro r hr
            simp [hr]
          · intro hr
            simp [hr]

theorem stepCtx_none_of_empty_window (env : Env) (pid : String) (now : Time)
    (reports : List Report) (uid : String)
    (h : windowFilter env.emotions uid (lastReportTime reports uid pid) now = []) :
    stepCtx env pid now reports uid = none := by
  simp only [stepCtx]
  split
  · rfl
  · split
    · rfl
    · split
      · rfl
      · split
        · rfl
        · rename_i e0 rest hdata
          rw [h] at hdata
          cases hdata

theorem processUser_skip (env : Env) (pid : String) (now : Time) (acc : ProjAcc)
    (uid : String) (h : stepCtx env pid now acc.reports uid = none) :
    processUser env pid now acc uid = acc := by
  simp [processUser, h]

theorem processUser_fail (env : Env) (pid : String) (now : Time) (acc : ProjAcc)
    (uid : String) (ctx : StepCtx) (b : Bool) (m : Option String)
    (h : stepCtx env pid now acc.reports uid = some ctx)
    (hg : get_mood_summary_from_llm env.gen (individualCall ctx) = (none, b, m)) :
    processUser env pid now acc uid = accumulateMember acc ctx := by
  simp only [processUser, h]
  rw [hg]

theorem processUser_success (env : Env) (pid : String) (now : Time) (acc : ProjAcc)
    (uid : String) (ctx : StepCtx) (summary : String) (al : Bool) (msg : Option String)
    (h : stepCtx env pid now acc.reports uid = some ctx)
    (hg : get_mood_summary_from_llm env.gen (individualCall ctx) = (some summary, al, msg)) :
    processUser env pid now acc uid =
      { accumulateMember acc ctx with
        reports := acc.reports ++ [mkIndReport pid now uid ctx summary al msg]
        inserted := acc.inserted ++ [mkIndReport pid now uid ctx summary al msg]
        summaries := acc.summaries ++ [(ctx.username, summary)] } := by
  simp only [processUser, h]
  rw [hg]
  rfl

theorem processUser_cases (env : Env) (pid : String) (now : Time) (acc : ProjAcc)
    (uid : String) :
    processUser env pid now acc uid = acc ∨
    ∃ ctx, stepCtx env pid now acc.reports uid = some ctx ∧
      (processUser env pid now acc uid = accumulateMember acc ctx ∨
       ∃ summary al msg,
         get_mood_summary_from_llm env.gen (individualCall ctx) = (some summary, al, msg) ∧
         processUser env pid now acc uid =
           { accumulateMember acc ctx with
             reports := acc.reports ++ [mkIndReport pid now uid ctx summary al msg]
             inserted := acc.inserted ++ [mkIndReport pid now uid ctx summary al msg]
             summaries := acc.summaries ++ [(ctx.username, summary)] }) := by
  cases hctx : stepCtx env pid now acc.reports uid with
  | none => exact Or.inl (processUser_skip env pid now acc uid hctx)
  | some ctx =>
    refine Or.inr ⟨ctx, rfl, ?_⟩
    rcases hg : get_mood_summary_from_llm env.gen (individualCall ctx) with ⟨s, al, msg⟩
    cases s with
    | none => exact Or.inl (processUser_fail env pid now acc uid ctx al msg hctx hg)
    | some summary =>
      exact Or.inr ⟨summary, al, msg, rfl,
        processUser_success env pid now acc uid ctx summary al msg hctx hg⟩

theorem foldl_processUser_invariant (env : Env) (pid : String) (now : Time)
    (P : ProjAcc → Prop)
    (hstep : ∀ acc uid, P acc → P (processUser env pid now acc uid)) :
    ∀ (ms : List String) (acc : ProjAcc), P acc →
      P (ms.foldl (processUser env pid now) acc) := by
  intro ms
  induction ms with
  | nil => intro acc h; exact h
  | cons uid rest ih =>
    intro acc h
    exact ih _ (hstep acc uid h)

theorem processUser_inserted_step (env : Env) (pid : String) (now : Time) (acc : ProjAcc)
    (uid : String) :
    ∀ r ∈ (processUser env pid now acc uid).inserted,
      r ∈ acc.inserted ∨
        ∃ ctx summary al msg,
          stepCtx env pid now acc.reports uid = some ctx ∧
          get_mood_summary_from_llm env.gen (individualCall ctx) = (some summary, al, msg) ∧
          r = mkIndReport pid now uid ctx summary al msg := by
  intro r hr
  rcases processUser_cases env pid now acc uid with h | ⟨ctx, hctx, h | ⟨summary, al, msg, hg, h⟩⟩
  · rw [h] at hr
    exact Or.inl hr
  · rw [h, accumulateMember_inserted] at hr
    exact Or.inl hr
  · rw [h] at hr
    simp only [List.mem_append, List.mem_singleton] at hr
    rcases hr with hr | hr
    · exact Or.inl hr
    · exact Or.inr ⟨ctx, summary, al, msg, hctx, hg, hr⟩

theorem memberFold_inserted_individual (env : Env) (now : Time) (reports : List Report)
    (p : Project) :
    ∀ r ∈ (memberFold env now reports p).inserted, r.report_type = "individual" := by
  unfold memberFold
  apply foldl_processUser_invariant env p.project_id now
    (fun acc => ∀ r ∈ acc.inserted, r.report_type = "individual")
  · intro acc uid h r hr
    rcases processUser_inserted_step env p.project_id now acc uid r hr with hr' | ⟨_, _, _, _, _, _, hr'⟩
    · exact h r hr'
    · rw [hr']
      rfl
  · intro r hr
    cases hr

theorem memberFold_reports_eq (env : Env) (now : Time) (reports : List Report) (p : Project) :
    (memberFold env now reports p).reports =
      reports ++ (memberFold env now reports p).inserted := by
  unfold memberFold
  apply foldl_processUser_invariant env p.project_id now
    (fun acc => acc.reports = reports ++ acc.inserted)
  · intro acc uid h
    rcases processUser_cases env p.project_id now acc uid with he | ⟨ctx, hctx, he | ⟨summary, al, msg, hg, he⟩⟩
    · rw [he]; exact h
    · rw [he, accumulateMember_reports, accumulateMember_inserted]; exact h
    · rw [he]
      show acc.reports ++ _ = reports ++ (acc.inserted ++ _)
      rw [h, List.append_assoc]
  · simp

theorem memberFold_summaries_eq (env : Env) (now : Time) (reports : List Report) (p : Project) :
    (memberFold env now reports p).summaries.map Prod.snd =
      (memberFold env now reports p).inserted.map Report.mood_summary := by
  unfold memberFold
  apply foldl_processUser_invariant env p.project_id now
    (fun acc => acc.summaries.map Prod.snd = acc.inserted.map Report.mood_summary)
  · intro acc uid h
    rcases processUser_cases env p.project_id now acc uid with he | ⟨ctx, hctx, he | ⟨summary, al, msg, hg, he⟩⟩
    · rw [he]; exact h
    · rw [he, accumulateMember_inserted, accumulateMember_summaries]; exact h
    · rw [he]
      show (acc.summaries ++ [(ctx.username, summary)]).map Prod.snd =
        (acc.inserted ++ [mkIndReport p.project_id now uid ctx summary al msg]).map Report.mood_summary
      rw [List.map_append, List.map_append, h]
      rfl
  · rfl

theorem processProject_gate_false (env : Env) (now : Time) (reports : List Report)
    (p : Project)
    (h : ((memberFold env now reports p).count > 0 &&
          !(memberFold env now reports p).entries.isEmpty) = false) :
    processProject env now reports p = memberFold env now reports p := by
  simp only [processProject]
  rw [h]
  rfl

theorem processProject_cases (env : Env) (now : Time) (reports : List Report) (p : Project) :
    processProject env now reports p = memberFold env now reports p ∨
    ((memberFold env now reports p).count > 0 ∧
     (memberFold env now reports p).entries ≠ [] ∧
     ∃ gsum al msg,
       get_mood_summary_from_llm env.gen (groupCall (memberFold env now reports p)) =
         (some gsum, al, msg) ∧
       processProject env now reports p =
         { memberFold env now reports p with
           reports := (memberFold env now reports p).reports ++
             [mkGroupReport p.project_id now (memberFold env now reports p) gsum]
           inserted := (memberFold env now reports p).inserted ++
             [mkGroupReport p.project_id now (memberFold env now reports p) gsum] }) := by
  by_cases hgate : ((memberFold env now reports p).count > 0 &&
      !(memberFold env now reports p).entries.isEmpty) = true
  · rcases hg : get_mood_summary_from_llm env.gen (groupCall (memberFold env now reports p))
      with ⟨s, al, msg⟩
    cases s with
    | none =>
      refine Or.inl ?_
      simp only [processProject]
      rw [hgate, hg]
      rfl
    | some gsum =>
      simp only [Bool.and_eq_true, Bool.not_eq_true', List.isEmpty_eq_false, decide_eq_true_eq] at hgate
      refine Or.inr ⟨hgate.1, hgate.2, gsum, al, msg, rfl, ?_⟩
      simp only [processProject]
      have hgate' : (decide ((memberFold env now reports p).count > 0) &&
          !(memberFold env now reports p).entries.isEmpty) = true := by
        simp [hgate.1, hgate.2]
      rw [hgate', hg]
      rfl
  · have hgate' : ((memberFold env now reports p).count > 0 &&
        !(memberFold env now reports p).entries.isEmpty) = false := by
      cases hb : ((memberFold env now reports p).count > 0 &&
          !(memberFold env now reports p).entries.isEmpty)
      · rfl
      · exact absurd hb hgate
    exact Or.inl (processProject_gate_false env now reports p hgate')

theorem processProject_group_flag (env : Env) (now : Time) (reports : List Report)
    (p : Project) :
    ∀ r ∈ (processProject env now reports p).inserted,
      r.report_type = "group" → r.is_alarm = false ∧ r.alarm_message = none := by
  intro r hr hg
  rcases processProject_cases env now reports p with h | ⟨_, _, gsum, al, msg, _, h⟩
  · rw [h] at hr
    have hind := memberFold_inserted_individual env now reports p r hr
    rw [hind] at hg
    exact absurd hg (by decide)
  · rw [h] at hr
    simp only [List.mem_append, List.mem_singleton] at hr
    rcases hr with hr | hr
    · have hind := memberFold_inserted_individual env now reports p r hr
      rw [hind] at hg
      exact absurd hg (by decide)
    · rw [hr]
      exact ⟨rfl, rfl⟩

theorem tick_inserted_of_processProject (env : Env) (now : Time) (P : Report → Prop)
    (hstep : ∀ reports p r, r ∈ (processProject env now reports p).inserted → P r) :
    ∀ r ∈ (process_emotions_and_repos env now).2, P r := by
  unfold process_emotions_and_repos
  suffices haux : ∀ (ps : List Project) (st : List Report × List Report),
      (∀ r ∈ st.2, P r) →
      ∀ r ∈ (ps.foldl (fun st p =>
        let acc := processProject env now st.1 p
        (acc.reports, st.2 ++ acc.inserted)) st).2, P r by
    exact haux env.projects (env.mood_reports, []) (by intro r hr; cases hr)
  intro ps
  induction ps with
  | nil => intro st h; exact h
  | cons p rest ih =>
    intro st h
    simp only [List.foldl_cons]
    apply ih
    intro r hr
    simp only [List.mem_append] at hr
    rcases hr with hr | hr
    · exact h r hr
    · exact hstep st.1 p r hr

/-! ## Claim theorems -/

/-- C1: for every synthesizer call, if the report is a group report or there
are no prior individual reports, the returned `is_alarm` flag is false and the
alarm message is null, even when the generator's raw output begins with the
alarm marker — the leading marker is then stripped from the summary instead;
consequently every group report inserted by a tick has `is_alarm = false` and
a null alarm message, and a member processed while no prior individual report
exists for the pair never yields a report with `is_alarm = true`. -/
theorem C1_alarm_ineligible :
    (∀ (gen : GenCall → Option String) (c : GenCall),
        (c.report_type = "Group" ∨ c.previous_reports = []) →
        (get_mood_summary_from_llm gen c).2.1 = false ∧
        (get_mood_summary_from_llm gen c).2.2 = none ∧
        (∀ full, gen c = some full → full ≠ "" → startsWithStr full alarmMarker = true →
          (get_mood_summary_from_llm gen c).1 =
            some (pyLStrip (dropStr alarmMarker.data.length full)))) ∧
    (∀ (env : Env) (now : Time),
        ∀ r ∈ (process_emotions_and_repos env now).2, r.report_type = "group" →
          r.is_alarm = false ∧ r.alarm_message = none) ∧
    (∀ (env : Env) (pid : String) (now : Time) (acc : ProjAcc) (uid : String),
        findLatestIndividual acc.reports uid pid = none →
        ∀ r ∈ (processUser env pid now acc uid).inserted,
          r ∈ acc.inserted ∨ (r.is_alarm = false ∧ r.alarm_message = none)) := by
  refine ⟨?_, ?_, ?_⟩
  · intro gen c h
    have hmap : c.previous_reports = [] ∨ strContains c.report_type "Group" = true := by
      rcases h with h | h
      · right; rw [h]; decide
      · left; exact h
    rcases gms_ineligible gen c hmap with ⟨h1, h2⟩
    refine ⟨h1, h2, ?_⟩
    intro full hg hne hm
    rw [gms_ineligible_summary gen c full hmap hg hne, if_pos hm]
  · intro env now
    exact tick_inserted_of_processProject env now
      (fun r => r.report_type = "group" → r.is_alarm = false ∧ r.alarm_message = none)
      (processProject_group_flag env now)
  · intro env pid now acc uid hnone r hr
    rcases processUser_inserted_step env pid now acc uid r hr with
      hr' | ⟨ctx, summary, al, msg, hctx, hg, rfl⟩
    · exact Or.inl hr'
    · right
      rcases stepCtx_spec env pid now acc.reports uid ctx hctx with ⟨_, _, hprevs, _⟩
      have hcall : (individualCall ctx).previous_reports = [] := by
        show ctx.prevs = []
        rw [hprevs]
        exact (previousReports_nil_iff_findLatest_none acc.reports uid pid).mpr hnone
      rcases gms_ineligible env.gen (individualCall ctx) (Or.inl hcall) with ⟨h1, h2⟩
      rw [hg] at h1 h2
      exact ⟨h1, h2⟩

/-- C1 witness: a group-typed call whose generator answers with the alarm
marker still yields no alarm and a stripped summary. -/
theorem C1_alarm_ineligible_witness :
    (get_mood_summary_from_llm genAlarm1 cIneligible).2.1 = false ∧
    (get_mood_summary_from_llm genAlarm1 cIneligible).2.2 = none ∧
    (get_mood_summary_from_llm genAlarm1 cIneligible).1 = some "overload" := by
  rcases C1_alarm_ineligible.1 genAlarm1 cIneligible (Or.inl rfl) with ⟨h1, h2, h3⟩
  refine ⟨h1, h2, ?_⟩
  rw [h3 "ALARM: overload" rfl (by decide) (by decide)]
  decide

/-- C2: when the text-generation call raises or returns an empty result the
synthesizer returns a null summary with no alarm; the composer then persists
no report for that member (its reports and inserted lists are unchanged by the
member step) and the member's watermark is unchanged, so the next tick resolves
the same unprocessed window start; likewise a failing group call persists no
group report. -/
theorem C2_generation_failure :
    (∀ (gen : GenCall → Option String) (c : GenCall),
        gen c = none ∨ gen c = some "" →
        get_mood_summary_from_llm gen c = (none, false, none)) ∧
    (∀ (env : Env) (pid : String) (now : Time) (acc : ProjAcc) (uid : String) (ctx : StepCtx),
        stepCtx env pid now acc.reports uid = some ctx →
        (env.gen (individualCall ctx) = none ∨ env.gen (individualCall ctx) = some "") →
        (processUser env pid now acc uid).reports = acc.reports ∧
        (processUser env pid now acc uid).inserted = acc.inserted ∧
        lastReportTime (processUser env pid now acc uid).reports uid pid =
          lastReportTime acc.reports uid pid) ∧
    (∀ (env : Env) (now : Time) (reports : List Report) (p : Project),
        (env.gen (groupCall (memberFold env now reports p)) = none ∨
         env.gen (groupCall (memberFold env now reports p)) = some "") →
        processProject env now reports p = memberFold env now reports p) := by
  refine ⟨gms_fail, ?_, ?_⟩
  · intro env pid now acc uid ctx hctx hf
    have hg := gms_fail env.gen (individualCall ctx) hf
    have he := processUser_fail env pid now acc uid ctx false none hctx hg
    rw [he, accumulateMember_reports, accumulateMember_inserted]
    exact ⟨rfl, rfl, rfl⟩
  · intro env now reports p hf
    have hgf := gms_fail env.gen (groupCall (memberFold env now reports p)) hf
    rcases processProject_cases env now reports p with h | ⟨_, _, gsum, al, msg, hgms, _⟩
    · exact h
    · rw [hgf] at hgms
      exact absurd hgms (by simp)

/-- C2 witness: in `envGenFail` the generation service is down, the
synthesizer returns the null-summary sentinel, and processing `u1` inserts
nothing and leaves the reports state as it was. -/
theorem C2_generation_failure_witness :
    get_mood_summary_from_llm envGenFail.gen (individualCall ctxW) = (none, false, none) ∧
    (processUser envGenFail "p" 10 accW "u1").reports = accW.reports ∧
    (processUser envGenFail "p" 10 accW "u1").inserted = accW.inserted := by
  refine ⟨C2_generation_failure.1 envGenFail.gen (individualCall ctxW) (Or.inl rfl), ?_, ?_⟩
  · exact (C2_generation_failure.2.1 envGenFail "p" 10 accW "u1" ctxW rfl (Or.inl rfl)).1
  · exact (C2_generation_failure.2.1 envGenFail "p" 10 accW "u1" ctxW rfl (Or.inl rfl)).2.1

/-- C3 counterexample: in `envA` no prior individual report exists (the store
is empty), yet the stored individual report's `start_time` is 5 — the first
telemetry entry's timestamp — not the minimum representable time: the claim
"start_time equals the prior report's end_time or the epoch" fails. -/
theorem C3_counterexample :
    envA.mood_reports = [] ∧
    ((process_emotions_and_repos envA 10).2.map
        (fun r => (r.report_type, r.start_time))) = [("individual", 5), ("group", 5)] ∧
    (5 : Time) ≠ datetimeMin := by
  exact ⟨rfl, by decide, by decide⟩

/-- C3 (amended): every individual report inserted by a member step has
`start_time` equal to the `end_time` of the most recent prior individual
report for the pair, or — when no prior individual report exists — the
timestamp of the earliest telemetry entry of the processed window (not the
epoch). -/
theorem C3_watermark_start (env : Env) (pid : String) (now : Time) (acc : ProjAcc)
    (uid : String) :
    ∀ r ∈ (processUser env pid now acc uid).inserted, r ∈ acc.inserted ∨
      (r.report_type = "individual" ∧
       ((∃ prior, findLatestIndividual acc.reports uid pid = some prior ∧
           r.start_time = prior.end_time) ∨
        (findLatestIndividual acc.reports uid pid = none ∧
         ∃ e ∈ windowFilter env.emotions uid (lastReportTime acc.reports uid pid) now,
           r.start_time = e.timestamp ∧
           ∀ e' ∈ windowFilter env.emotions uid (lastReportTime acc.reports uid pid) now,
             e.timestamp ≤ e'.timestamp))) := by
  intro r hr
  rcases processUser_inserted_step env pid now acc uid r hr with
    hr' | ⟨ctx, summary, al, msg, hctx, hg, rfl⟩
  · exact Or.inl hr'
  · right
    rcases stepCtx_spec env pid now acc.reports uid ctx hctx with
      ⟨hdata, hne, _, hsome, hnone, _, _⟩
    refine ⟨rfl, ?_⟩
    cases hfl : findLatestIndividual acc.reports uid pid with
    | some prior =>
      left
      exact ⟨prior, rfl, hsome prior hfl⟩
    | none =>
      right
      refine ⟨rfl, ?_⟩
      have hstart := hnone hfl
      have hne' : sortEntries
          (windowFilter env.emotions uid (lastReportTime acc.reports uid pid) now) ≠ [] := by
        rw [← hdata]
        exact hne
      have hmemw : (sortEntries
          (windowFilter env.emotions uid (lastReportTime acc.reports uid pid) now)).headD
            defaultEntry ∈
          windowFilter env.emotions uid (lastReportTime acc.reports uid pid) now :=
        (mem_sortEntries _ _).mp (headD_mem _ hne')
      refine ⟨_, hmemw, ?_, ?_⟩
      · show ctx.start_time = _
        rw [hstart, hdata]
      · intro e' he'
        exact pairwise_headD_le _
          (pairwise_sortEntries
            (windowFilter env.emotions uid (lastReportTime acc.reports uid pid) now))
          e' ((mem_sortEntries _ _).mpr he')

/-- C3 witness: the amended statement applied to `envA`'s concrete run. -/
theorem C3_watermark_start_witness :
    rW3 ∈ accW.inserted ∨
      (rW3.report_type = "individual" ∧
       ((∃ prior, findLatestIndividual accW.reports "u1" "p" = some prior ∧
           rW3.start_time = prior.end_time) ∨
        (findLatestIndividual accW.reports "u1" "p" = none ∧
         ∃ e ∈ windowFilter envA.emotions "u1" (lastReportTime accW.reports "u1" "p") 10,
           rW3.start_time = e.timestamp ∧
           ∀ e' ∈ windowFilter envA.emotions "u1" (lastReportTime accW.reports "u1" "p") 10,
             e.timestamp ≤ e'.timestamp))) := by
  apply C3_watermark_start envA "p" 10 accW "u1" rW3
  rw [show (processUser envA "p" 10 accW "u1").inserted = [rW3] from rfl]
  exact List.mem_singleton.mpr rfl

/-- C4 counterexample: in `envGroupOnly` the single member's individual
synthesis fails, so zero individual reports are persisted, yet a group report
is persisted for the tick — the claim "a group report is persisted only if at
least one individual report was persisted this tick" fails. -/
theorem C4_counterexample :
    ((process_emotions_and_repos envGroupOnly 10).2.map Report.report_type) = ["group"] := by
  decide

/-- C4 (amended): a group report is persisted for a project only if the member
loop counted at least one member with new telemetry and accumulated at least
one telemetry entry (`processed_user_count > 0 and project_all_emotion_entries`
— members whose individual synthesis failed still count); if no member had new
telemetry, everything persisted by the project pass is an individual report,
i.e. no group report is persisted. -/
theorem C4_group_gate (env : Env) (now : Time) (reports : List Report) (p : Project) :
    (∀ r ∈ (processProject env now reports p).inserted, r.report_type = "group" →
       (memberFold env now reports p).count > 0 ∧
       (memberFold env now reports p).entries ≠ []) ∧
    ((memberFold env now reports p).count = 0 →
       ∀ r ∈ (processProject env now reports p).inserted, r.report_type = "individual") := by
  constructor
  · intro r hr hg
    rcases processProject_cases env now reports p with h | ⟨hc, he, gsum, al, msg, _, h⟩
    · rw [h] at hr
      have hind := memberFold_inserted_individual env now reports p r hr
      rw [hind] at hg
      exact absurd hg (by decide)
    · exact ⟨hc, he⟩
  · intro hcount r hr
    have hgate : (decide ((memberFold env now reports p).count > 0) &&
        !(memberFold env now reports p).entries.isEmpty) = false := by
      simp [hcount]
    rw [processProject_gate_false env now reports p hgate] at hr
    exact memberFold_inserted_individual env now reports p r hr

/-- C4 witness: the amended gate applied to `envGroupOnly`'s concrete group
report. -/
theorem C4_group_gate_witness :
    (memberFold envGroupOnly 10 [] pW).count > 0 ∧
    (memberFold envGroupOnly 10 [] pW).entries ≠ [] := by
  apply (C4_group_gate envGroupOnly 10 [] pW).1 gW4
  · rw [show (processProject envGroupOnly 10 [] pW).inserted = [gW4] from rfl]
    exact List.mem_singleton.mpr rfl
  · rfl

/-- C5 counterexample: the composer labels individual calls
`"Individual for {username}"`, and the post-processing checks `"Group" in
report_type`, so a member whose stored username is `"Group"` with one prior
report (alarm-eligible per the claim) is never flagged even though the
response begins with `"ALARM: "`; and for a response `"ALARM: \nfeeling low"`
the extracted reason is `"feeling low"` — obtained by whitespace-stripping
before taking the first line — while the text following the marker up to the
first line break is the empty string. -/
theorem C5_counterexample :
    ((process_emotions_and_repos envC5 10).2.map
        (fun r => (r.report_type, r.is_alarm, r.alarm_message, r.mood_summary))) =
      [("individual", false, none, "overload")] ∧
    previousReports envC5.mood_reports "u1" "p" ≠ [] ∧
    (get_mood_summary_from_llm genAlarm1 cGroupUser).2.1 = false ∧
    startsWithStr "ALARM: overload" alarmMarker = true ∧
    cGroupUser.previous_reports ≠ [] ∧
    (get_mood_summary_from_llm genAlarm2 cEligible).2.2 = some "feeling low" ∧
    firstLineStr (dropStr alarmMarker.data.length "ALARM: \nfeeling low") = "" := by
  refine ⟨by decide, by decide, by decide, by decide, by decide, by decide, by decide⟩

/-- C5 (amended): for every synthesizer call whose report type mentions
"Individual" and not "Group" (the type embeds the member's username, so this
requires a username not containing "Group") and that has at least one prior
report, the result is flagged as an alarm iff the generator's response begins
with the literal `"ALARM: "`; in that case the alarm reason is the text
following the marker, stripped of surrounding whitespace, up to its first
line break. -/
theorem C5_alarm_contract (gen : GenCall → Option String) (c : GenCall) (full : String)
    (hInd : strContains c.report_type "Individual" = true)
    (hng : strContains c.report_type "Group" = false)
    (hprev : c.previous_reports ≠ [])
    (hg : gen c = some full) (hne : full ≠ "") :
    ((get_mood_summary_from_llm gen c).2.1 = true ↔ startsWithStr full alarmMarker = true) ∧
    (startsWithStr full alarmMarker = true →
      (get_mood_summary_from_llm gen c).2.2 =
        some (firstLineStr (pyStrip (dropStr alarmMarker.data.length full)))) := by
  have heq := gms_eligible gen c full hprev hng hg hne
  rw [heq]
  constructor
  · simp [hInd]
  · intro hm
    simp [hInd, hm]

/-- C5 witness: the amended contract applied to an eligible call whose
response signals an alarm. -/
theorem C5_alarm_contract_witness :
    ((get_mood_summary_from_llm genAlarm3 cEligible).2.1 = true ↔
      startsWithStr "ALARM: stress high\nmore" alarmMarker = true) ∧
    (startsWithStr "ALARM: stress high\nmore" alarmMarker = true →
      (get_mood_summary_from_llm genAlarm3 cEligible).2.2 =
        some (firstLineStr (pyStrip (dropStr alarmMarker.data.length
          "ALARM: stress high\nmore")))) :=
  C5_alarm_contract genAlarm3 cEligible "ALARM: stress high\nmore"
    (by decide) (by decide) (by decide) rfl (by decide)

/-- C6: for every non-empty list of telemetry entries (with the dict-like
property that keys are unique within an entry), the computed
`average_emotions` maps each key carrying a numeric value in at least one
entry to the arithmetic mean over only the entries that contain it (per-key
denominators), and keys absent from all entries are absent from the output;
in particular `[{happy:0.2},{happy:0.6,sad:0.4}]` yields
`{happy: 0.4, sad: 0.4}`. -/
theorem C6_average_emotions :
    (∀ (entries : List TelemetryEntry) (k : String), entries ≠ [] →
        (∀ e ∈ entries, (e.emotions.map Prod.fst).Nodup) →
        (averageEmotions entries).lookup k = specMeanForKey entries k) ∧
    averageEmotions exC6 = [("happy", 2/5), ("sad", 2/5)] := by
  constructor
  · intro entries k _ hnd
    have hl := lookup_map_graph (emotionKeys entries)
      (fun k => emotionSum entries k / (emotionCount entries k : ℚ)) k
    unfold averageEmotions
    rw [hl]
    rcases sum_count_filterMap entries k hnd with ⟨hs, hc⟩
    by_cases hk : k ∈ emotionKeys entries
    · rw [if_pos hk]
      have hcount := (mem_emotionKeys_iff entries k).mp hk
      have hvals : entries.filterMap (entryNumValue k) ≠ [] := by
        intro h0
        rw [hc, h0] at hcount
        exact hcount rfl
      have hempty : (entries.filterMap (entryNumValue k)).isEmpty = false := by
        cases hv : entries.filterMap (entryNumValue k) with
        | nil => exact absurd hv hvals
        | cons a l => rfl
      simp only [specMeanForKey, hempty, Bool.false_eq_true, if_false]
      rw [hs, hc]
    · rw [if_neg hk]
      have hcount : emotionCount entries k = 0 := by
        by_contra h0
        exact hk ((mem_emotionKeys_iff entries k).mpr h0)
      have hvals : entries.filterMap (entryNumValue k) = [] := by
        rw [hc] at hcount
        exact List.length_eq_zero.mp hcount
      simp [specMeanForKey, hvals]
  · simp +decide [averageEmotions, emotionKeys, dedupFirst, numericPairs,
      entryNumericPairs, emotionSum, emotionCount, toNumVal, exC6]
    norm_num

/-- C6 witness: the general statement applied to the spec's example and the
key "sad" (whose denominator is 1, not 2). -/
theorem C6_average_emotions_witness :
    (averageEmotions exC6).lookup "sad" = specMeanForKey exC6 "sad" :=
  C6_average_emotions.1 exC6 "sad" (by decide) (by decide)

/-- C7: every individual report inserted by a member step has `end_time` equal
to the timestamp of the newest telemetry entry strictly after the member's
watermark and at or before the processing instant (not the wall clock); and
when no such entry exists the member is skipped entirely — no report and no
state change. -/
theorem C7_window_end (env : Env) (pid : String) (now : Time) (acc : ProjAcc)
    (uid : String) :
    (∀ r ∈ (processUser env pid now acc uid).inserted, r ∈ acc.inserted ∨
       ∃ e ∈ windowFilter env.emotions uid (lastReportTime acc.reports uid pid) now,
         r.end_time = e.timestamp ∧
         ∀ e' ∈ windowFilter env.emotions uid (lastReportTime acc.reports uid pid) now,
           e'.timestamp ≤ r.end_time) ∧
    (windowFilter env.emotions uid (lastReportTime acc.reports uid pid) now = [] →
       processUser env pid now acc uid = acc) := by
  constructor
  · intro r hr
    rcases processUser_inserted_step env pid now acc uid r hr with
      hr' | ⟨ctx, summary, al, msg, hctx, hg, rfl⟩
    · exact Or.inl hr'
    · right
      rcases stepCtx_spec env pid now acc.reports uid ctx hctx with
        ⟨hdata, hne, _, _, _, hend, _⟩
      have hne' : sortEntries
          (windowFilter env.emotions uid (lastReportTime acc.reports uid pid) now) ≠ [] := by
        rw [← hdata]
        exact hne
      have hmemw : (sortEntries
          (windowFilter env.emotions uid (lastReportTime acc.reports uid pid) now)).getLastD
            defaultEntry ∈
          windowFilter env.emotions uid (lastReportTime acc.reports uid pid) now :=
        (mem_sortEntries _ _).mp (getLastD_mem _ hne')
      refine ⟨_, hmemw, ?_, ?_⟩
      · show ctx.end_time = _
        rw [hend, hdata]
      · intro e' he'
        show e'.timestamp ≤ ctx.end_time
        rw [hend, hdata]
        exact pairwise_le_getLastD _
          (pairwise_sortEntries
            (windowFilter env.emotions uid (lastReportTime acc.reports uid pid) now))
          e' ((mem_sortEntries _ _).mpr he')
  · intro hw
    exact processUser_skip env pid now acc uid
      (stepCtx_none_of_empty_window env pid now acc.reports uid hw)

/-- C7 witness: at instant 3 user `u1` has no new telemetry in `envA` and is
skipped; at instant 10 the inserted report's `end_time` is the newest entry's
timestamp. -/
theorem C7_window_end_witness :
    processUser envA "p" 3 accW "u1" = accW ∧
    (rW3 ∈ accW.inserted ∨
      ∃ e ∈ windowFilter envA.emotions "u1" (lastReportTime accW.reports "u1" "p") 10,
        rW3.end_time = e.timestamp ∧
        ∀ e' ∈ windowFilter envA.emotions "u1" (lastReportTime accW.reports "u1" "p") 10,
          e'.timestamp ≤ rW3.end_time) := by
  constructor
  · exact (C7_window_end envA "p" 3 accW "u1").2 (by decide)
  · apply (C7_window_end envA "p" 10 accW "u1").1 rW3
    rw [show (processUser envA "p" 10 accW "u1").inserted = [rW3] from rfl]
    exact List.mem_singleton.mpr rfl

/-- C8 counterexample: in `envC8` member `u1`'s individual synthesis fails
(no individual report for `u1` is persisted), yet the persisted group report
counts `u1`'s telemetry entry (`processed_entries = 2`), `u1`'s commit
(`commit_count = 1`) and `u1` itself (`processed_user_count = 2`) — the claim
that the group totals come only from members whose individual report was
persisted fails. -/
theorem C8_counterexample :
    ((process_emotions_and_repos envC8 10).2.map
        (fun r => (r.report_type, r.user_id, r.processed_entries, r.commit_count,
                   r.processed_user_count))) =
      [("individual", some "u2", 1, 0, (none : Option Nat)),
       ("group", (none : Option String), 2, 1, some 2)] ∧
    (memberFold envC8 10 [] pW8).summaries = [("Bob", "bob fine")] := by
  exact ⟨by decide, by decide⟩

/-- C8 (amended): only the individual summaries handed to the group
synthesizer call come exclusively from members whose individual report was
persisted this tick (they are exactly the persisted reports' summaries, in
order); the aggregated telemetry entries, commit messages and the stored
`processed_entries`/`commit_count`/`processed_user_count` totals instead
include every member with new telemetry — a member is accumulated before the
synthesizer runs, so a synthesis failure does not remove its contribution. -/
theorem C8_group_rollup (env : Env) (now : Time) (reports : List Report) (p : Project) :
    (groupCall (memberFold env now reports p)).individual_summaries =
      some (memberFold env now reports p).summaries ∧
    (memberFold env now reports p).summaries.map Prod.snd =
      (memberFold env now reports p).inserted.map Report.mood_summary ∧
    (∀ r ∈ (processProject env now reports p).inserted, r.report_type = "group" →
       r.processed_entries = (memberFold env now reports p).entries.length ∧
       r.commit_count = (memberFold env now reports p).commits.length ∧
       r.processed_user_count = some (memberFold env now reports p).count) ∧
    (∀ (acc : ProjAcc) (uid : String) (ctx : StepCtx),
       stepCtx env p.project_id now acc.reports uid = some ctx →
       (processUser env p.project_id now acc uid).entries = acc.entries ++ ctx.newData ∧
       (processUser env p.project_id now acc uid).commits =
         acc.commits ++ ctx.commit_messages ∧
       (processUser env p.project_id now acc uid).count = acc.count + 1) := by
  refine ⟨rfl, memberFold_summaries_eq env now reports p, ?_, ?_⟩
  · intro r hr hg
    rcases processProject_cases env now reports p with h | ⟨_, _, gsum, al, msg, _, h⟩
    · rw [h] at hr
      have hind := memberFold_inserted_individual env now reports p r hr
      rw [hind] at hg
      exact absurd hg (by decide)
    · rw [h] at hr
      simp only [List.mem_append, List.mem_singleton] at hr
      rcases hr with hr | hr
      · have hind := memberFold_inserted_individual env now reports p r hr
        rw [hind] at hg
        exact absurd hg (by decide)
      · rw [hr]
        exact ⟨rfl, rfl, rfl⟩
  · intro acc uid ctx h
    simp only [processUser, h]
    rcases hg : get_mood_summary_from_llm env.gen (individualCall ctx) with ⟨s, al, msg⟩
    cases s with
    | none => exact ⟨rfl, rfl, rfl⟩
    | some summary => exact ⟨rfl, rfl, rfl⟩

/-- C8 witness: the amended statement applied to `envC8`: the group report's
totals equal the member loop's accumulators, and the failing member `u1` is
still accumulated by its step. -/
theorem C8_group_rollup_witness :
    (gW8.processed_entries = (memberFold envC8 10 [] pW8).entries.length ∧
     gW8.commit_count = (memberFold envC8 10 [] pW8).commits.length ∧
     gW8.processed_user_count = some (memberFold envC8 10 [] pW8).count) ∧
    ((processUser envC8 "p" 10 accW "u1").entries = accW.entries ++ ctxC8u1.newData ∧
     (processUser envC8 "p" 10 accW "u1").commits =
       accW.commits ++ ctxC8u1.commit_messages ∧
     (processUser envC8 "p" 10 accW "u1").count = accW.count + 1) := by
  constructor
  · apply (C8_group_rollup envC8 10 [] pW8).2.2.1 gW8
    · rw [show (processProject envC8 10 [] pW8).inserted = [rBobW, gW8] from rfl]
      exact List.mem_cons_of_mem _ (List.mem_singleton.mpr rfl)
    · rfl
  · exact (C8_group_rollup envC8 10 [] pW8).2.2.2 accW "u1" ctxC8u1 rfl

/-- C9: the chat fetcher's result does not depend on its `user_id` argument —
two calls against the same channel/message state return identical lists; a
string is returned iff it is `"display_name: text"` for some message bearing a
text field, from any author, in some channel the bot is a member of, with
resolvable author; and the result is deduplicated. -/
theorem C9_slack_user_independent :
    (∀ (u1 u2 : String) (st : SlackState),
        get_slack_messages_for_user u1 st = get_slack_messages_for_user u2 st) ∧
    (∀ (u : String) (st : SlackState) (s : String),
        s ∈ get_slack_messages_for_user u st ↔
          ∃ ch ∈ st.channels, ch.is_member = true ∧
            ∃ m ∈ ch.history, ∃ t, m.text = some t ∧
              ∃ n, st.display_name m.user = some n ∧ s = n ++ ": " ++ t) ∧
    (∀ (u : String) (st : SlackState), (get_slack_messages_for_user u st).Nodup) := by
  refine ⟨fun u1 u2 st => rfl, ?_, fun u st => nodup_dedupFirst _⟩
  intro u st s
  show s ∈ dedupFirst _ ↔ _
  rw [mem_dedupFirst]
  constructor
  · intro hs
    rcases List.mem_flatMap.mp hs with ⟨ch, hch, hmem⟩
    rcases List.mem_filter.mp hch with ⟨hch2, hflag⟩
    rcases List.mem_filterMap.mp hmem with ⟨m, hm, hout⟩
    rcases (slackMsgOut_eq_some_iff st m s).mp hout with ⟨t, ht, n, hn, rfl⟩
    exact ⟨ch, hch2, hflag, m, hm, t, ht, n, hn, rfl⟩
  · rintro ⟨ch, hch, hflag, m, hm, t, ht, n, hn, rfl⟩
    apply List.mem_flatMap.mpr
    refine ⟨ch, List.mem_filter.mpr ⟨hch, hflag⟩, ?_⟩
    exact List.mem_filterMap.mpr ⟨m, hm, (slackMsgOut_eq_some_iff st m _).mpr ⟨t, ht, n, hn, rfl⟩⟩

/-- C10: whenever the synthesizer flags an alarm, the summary it returns is
the generator's full response unmodified and therefore still begins with
`"ALARM: "`; every report a member step inserts with `is_alarm = true` has a
`mood_summary` beginning with the marker; the summary is modified only when
the call is alarm-ineligible (empty history or group type), in which case it
is the marker-stripped response; and the only other stripping site is
`cleanSummaryForGroupPrompt`, which removes a leading marker from a summary's
first line when it is embedded into the group-report prompt. -/
theorem C10_alarm_summary_unmodified :
    (∀ (gen : GenCall → Option String) (c : GenCall),
        (get_mood_summary_from_llm gen c).2.1 = true →
        ∃ full, gen c = some full ∧ (get_mood_summary_from_llm gen c).1 = some full ∧
          startsWithStr full alarmMarker = true) ∧
    (∀ (env : Env) (pid : String) (now : Time) (acc : ProjAcc) (uid : String),
        ∀ r ∈ (processUser env pid now acc uid).inserted, r ∉ acc.inserted →
          r.is_alarm = true → startsWithStr r.mood_summary alarmMarker = true) ∧
    (∀ (gen : GenCall → Option String) (c : GenCall) (full : String),
        gen c = some full → full ≠ "" →
        (get_mood_summary_from_llm gen c).1 ≠ some full →
        (c.previous_reports = [] ∨ strContains c.report_type "Group" = true) ∧
          startsWithStr full alarmMarker = true ∧
          (get_mood_summary_from_llm gen c).1 =
            some (pyLStrip (dropStr alarmMarker.data.length full))) ∧
    (∀ s, startsWithStr (firstLineStr s) alarmMarker = true →
        cleanSummaryForGroupPrompt s =
          pyStrip (dropStr alarmMarker.data.length (firstLineStr s))) := by
  refine ⟨?_, ?_, ?_, ?_⟩
  · intro gen c h
    rcases gms_alarm_inv gen c h with ⟨full, hgen, _, hsw, _, _, _, hsum⟩
    exact ⟨full, hgen, hsum, hsw⟩
  · intro env pid now acc uid r hr hnotin hal
    rcases processUser_inserted_step env pid now acc uid r hr with
      hr' | ⟨ctx, summary, al, msg, hctx, hg, rfl⟩
    · exact absurd hr' hnotin
    · have hal' : (get_mood_summary_from_llm env.gen (individualCall ctx)).2.1 = true := by
        rw [hg]
        exact hal
      rcases gms_alarm_inv env.gen (individualCall ctx) hal' with
        ⟨full, _, _, hsw, _, _, _, hsum⟩
      rw [hg] at hsum
      have heq : summary = full := Option.some.inj hsum
      show startsWithStr summary alarmMarker = true
      rw [heq]
      exact hsw
  · intro gen c full hg hne hmod
    exact gms_summary_modified gen c full hg hne hmod
  · intro s h
    simp [cleanSummaryForGroupPrompt, h]

/-- C10 witness: in `envAlarm` the inserted alarm report's stored summary
still begins with the marker; and the group-prompt cleaner strips a leading
marker. -/
theorem C10_alarm_summary_unmodified_witness :
    startsWithStr rAlarmW.mood_summary alarmMarker = true ∧
    cleanSummaryForGroupPrompt "ALARM: stress rising\ndetails follow" =
      pyStrip (dropStr alarmMarker.data.length
        (firstLineStr "ALARM: stress rising\ndetails follow")) := by
  constructor
  · apply C10_alarm_summary_unmodified.2.1 envAlarm "p" 10 accAlarmW "u1" rAlarmW
    · rw [show (processUser envAlarm "p" 10 accAlarmW "u1").inserted = [rAlarmW] from rfl]
      exact List.mem_singleton.mpr rfl
    · decide
    · rfl
  · exact C10_alarm_summary_unmodified.2.2.2 "ALARM: stress rising\ndetails follow" (by decide)
